import Mathlib

/-
  Verification of the Xen grant-table driver (drivers/xen/gnttab.c).

  The C code is embedded shallowly:
  - machine integers become Nat/Int (flags are bit-manipulated only, so no
    wrap-around arises; hypercall status codes are signed, hence Int);
  - the hypervisor and the heap are oracles passed in as explicit arguments
    (lists of statuses observed by successive hypercalls, booleans for
    allocation success);
  - the interrupt-masked free-list allocator becomes explicit state passing
    on a record holding the gref_list array (as a function Nat -> Nat), the
    counting semaphore and the interrupt-mask bit;
  - the optimistic compare-and-swap loop of gnttab_reset_flags is driven by
    the list of values the flags word holds at each successive access
    (concurrent interference made explicit).
-/

namespace Gnttab

/-! ## Constants -/

/-- GNTTAB_GREF_USED = UINT32_MAX - 1 (gnttab.c line 38): the sentinel stored
in a free-list slot while its gref is handed out. -/
def GNTTAB_GREF_USED : Nat := 4294967294

/-- GOP_RETRY_DELAY = 200 (gnttab.c line 36): total retry budget in ms. -/
def GOP_RETRY_DELAY : Nat := 200

/-- Modelled from the spec: GNTTAB_NR_RESERVED_ENTRIES comes from the Xen
public grant-table header, which is not under src/; the spec says identifiers
below a fixed threshold are protocol-reserved (Xen fixes it at 8). -/
def GNTTAB_NR_RESERVED_ENTRIES : Nat := 8

/-- LEGACY_MAX_GNT_FRAMES_SUPPORTED (gnttab.c line 303): fallback capacity
used when the query-size hypercall fails. -/
def LEGACY_MAX_GNT_FRAMES_SUPPORTED : Nat := 4

/-- Modelled from the spec: grant-table flag bits come from the Xen public
header (not under src/); the spec describes flags as a bitfield with distinct
access-permitted, read-only, currently-reading and currently-writing bits. -/
def GTF_permit_access : Nat := 1

/-- Modelled from the spec: read-only bit of the flags bitfield. -/
def GTF_readonly : Nat := 4

/-- Modelled from the spec: currently-being-read bit of the flags bitfield. -/
def GTF_reading : Nat := 8

/-- Modelled from the spec: currently-being-written bit of the flags bitfield. -/
def GTF_writing : Nat := 16

/-- Modelled from the spec: hypercall status codes are stable small integers
with a known success code (0) and known transient-retry code; values from the
Xen public header, which is not under src/. -/
def GNTST_okay : Int := 0

/-- Modelled from the spec: "no device space" status code. -/
def GNTST_no_device_space : Int := -7

/-- Modelled from the spec: hard-failure "bad page" status code. -/
def GNTST_bad_page : Int := -9

/-- Modelled from the spec: transient "try again" status code. -/
def GNTST_eagain : Int := -12

/-! ## Grant entry (grant_entry_v1_t) -/

/-- One v1 grant-table entry: flags, remote domain id, shared frame. -/
structure GrantEntry where
  flags : Nat
  domid : Nat
  frame : Nat
deriving DecidableEq, Repr

/-! ## gnttab_reset_flags (gnttab.c lines 117-136)

The C function runs an optimistic read / compare-and-swap loop on the entry's
flags word.  The loop is driven here by the initial value read plus the list
of values the word holds at each successive cmpxchg (the interference of the
remote party made explicit).  A cmpxchg that observes the expected value
writes 0 and the loop exits; one that observes a different value retries with
that value. -/

inductive FlagsOutcome where
  /-- The reading/writing test fired: the C function returns 1 without any
  write to the flags word; the value seen is recorded. -/
  | stillInUse (seen : Nat) : FlagsOutcome
  /-- A cmpxchg succeeded at value swapped: the word went from swapped to 0
  and the C function returns 0. -/
  | cleared (swapped : Nat) : FlagsOutcome
  /-- The interference trace ran out before the loop exited (the C loop would
  keep spinning). -/
  | exhausted : FlagsOutcome
deriving DecidableEq, Repr

/-- The do/while loop of gnttab_reset_flags: fl is the value most recently
observed (flags = nflags), vs the values observed by later cmpxchg calls.
In both equations the reading/writing test comes first, exactly as in the C
loop body; only then is the next cmpxchg observation consumed. -/
def reset_loop : Nat → List Nat → FlagsOutcome
  | fl, [] =>
    if fl &&& (GTF_reading ||| GTF_writing) ≠ 0 then FlagsOutcome.stillInUse fl
    else FlagsOutcome.exhausted
  | fl, v :: rest =>
    if fl &&& (GTF_reading ||| GTF_writing) ≠ 0 then FlagsOutcome.stillInUse fl
    else if v = fl then FlagsOutcome.cleared fl else reset_loop v rest

/-- gnttab_reset_flags at the entry level: returns the C return code and the
entry after the call.  The only store the C function performs is the
successful cmpxchg of the flags word to 0; the busy path returns 1 before any
store. -/
def gnttab_reset_flags (e : GrantEntry) (vs : List Nat) : Option (Int × GrantEntry) :=
  match reset_loop e.flags vs with
  | FlagsOutcome.stillInUse _ => some (1, e)
  | FlagsOutcome.cleared _ => some (0, { e with flags := 0 })
  | FlagsOutcome.exhausted => none

/-! ## gnttab_grant_permit_access (gnttab.c lines 89-104)

The function performs exactly four memory actions, in program order:
store frame, store domid, full data-memory fence, store flags.  The claim
about it is an ordering claim, so the embedding records the action trace. -/

inductive GntWrite where
  | wframe (v : Nat) : GntWrite
  | wdomid (v : Nat) : GntWrite
  | fence : GntWrite
  | wflags (v : Nat) : GntWrite
deriving DecidableEq, Repr

/-- The sequence of memory actions gnttab_grant_permit_access performs on the
table entry of the granted gref (gnttab.c lines 92-103). -/
def gnttab_grant_permit_access (domid gfn : Nat) (readonly : Bool) : List GntWrite :=
  let flags := if readonly then GTF_permit_access ||| GTF_readonly else GTF_permit_access
  [GntWrite.wframe gfn, GntWrite.wdomid domid, GntWrite.fence, GntWrite.wflags flags]

/-- Effect of one memory action on the entry (a fence changes no field). -/
def applyWrite (e : GrantEntry) : GntWrite → GrantEntry
  | GntWrite.wframe v => { e with frame := v }
  | GntWrite.wdomid v => { e with domid := v }
  | GntWrite.fence => e
  | GntWrite.wflags v => { e with flags := v }

/-- The entry after a prefix of the action trace: what an observer that has
seen the first writes of the trace reads. -/
def applyWrites (e : GrantEntry) (ws : List GntWrite) : GrantEntry :=
  ws.foldl applyWrite e

/-! ## gnttab_get_page (gnttab.c lines 196-223)

The page allocator and the memory_op hypercall are oracles.  The result pairs
the returned pointer (some () = a page, none = NULL) with whether a heap
allocation is still outstanding when the function returns.  On the
remove-from-physmap failure path the C code returns NULL without calling
k_free(page_addr), so the allocation stays outstanding. -/
def gnttab_get_page (alloc_ok : Bool) (remove_ret : Int) : Option Unit × Bool :=
  if alloc_ok = false then (none, false)
  else if remove_ret ≠ 0 then (none, true)
  else (some (), true)

/-! ## gnttab_get_max_frames (gnttab.c lines 303-317) and the capacity check
of gnttab_init (lines 328-332) -/

/-- gnttab_get_max_frames: ret is the overall hypercall return, status the
in-place q.status, max_nr_frames the reported capacity. -/
def gnttab_get_max_frames (ret : Int) (status : Int) (max_nr_frames : Nat) : Nat :=
  if ret < 0 ∨ status ≠ GNTST_okay then LEGACY_MAX_GNT_FRAMES_SUPPORTED
  else max_nr_frames

/-- The k_panic condition of gnttab_init: the obtained maximum is below the
configured number of grant frames. -/
def gnttab_init_capacity_panic (cfg_frames : Nat) (ret status : Int) (max_nr_frames : Nat) : Bool :=
  gnttab_get_max_frames ret status max_nr_frames < cfg_frames

/-! ## gop_eagain_retry (gnttab.c lines 176-194)

The single-entry resubmission loop.  The hypercall is an oracle: the list of
statuses written back by successive HYPERVISOR_grant_table_op(cmd, gref, 1)
calls.  delay starts at step = 10 and grows by 10 after every attempt; the
loop continues while the status is GNTST_eagain and the grown delay is still
below GOP_RETRY_DELAY; afterwards a delay at or above GOP_RETRY_DELAY forces
the status to GNTST_bad_page. -/

/-- The do/while loop: current delay, then the statuses the successive
hypercalls write.  Returns the status and delay at loop exit, or none if the
oracle runs out while the loop would still be spinning. -/
def gop_loop (delay : Nat) : List Int → Option (Int × Nat)
  | [] => none
  | st :: rest =>
    if st = GNTST_eagain ∧ delay + 10 < GOP_RETRY_DELAY then gop_loop (delay + 10) rest
    else some (st, delay + 10)

/-- gop_eagain_retry: run the loop from delay = step = 10, then apply the
timeout conversion of gnttab.c lines 190-193. -/
def gop_eagain_retry (oracle : List Int) : Option Int :=
  (gop_loop 10 oracle).map
    (fun p => if GOP_RETRY_DELAY ≤ p.2 then GNTST_bad_page else p.1)

/-! ## gnttab_map_refs (gnttab.c lines 253-282)

The batch hypercall is an oracle again: its overall return value and the
per-entry statuses it wrote in place.  The per-index oracle feeds the
individual resubmissions of gop_eagain_retry.  After a retry the C code
decrements i and re-runs the switch on the entry; the re-run would call
gop_eagain_retry again only if the retried status were still GNTST_eagain,
which is modelled as none (and proved unreachable).  The
GNTST_no_device_space arm only logs; the default arm does nothing. -/

/-- One entry of the post-batch status loop, including the re-check the i--
performs after a retry. -/
def map_entry_recheck (oracle : List Int) (st : Int) : Option Int :=
  if st = GNTST_eagain then
    (gop_eagain_retry oracle).bind
      (fun st2 => if st2 = GNTST_eagain then none else some st2)
  else some st

/-- The for loop of gnttab_map_refs over the batch statuses; i indexes the
per-entry hypercall oracles. -/
def map_refs_loop (oracles : Nat → List Int) : Nat → List Int → Option (List Int)
  | _, [] => some []
  | i, st :: rest =>
    match map_entry_recheck (oracles i) st with
    | none => none
    | some st2 => (map_refs_loop oracles (i + 1) rest).map (st2 :: ·)

/-- gnttab_map_refs: batch_ret is the overall return of the batched
hypercall, statuses the per-entry statuses it wrote.  A nonzero batch_ret is
returned immediately with the statuses untouched; otherwise the status loop
runs and 0 is returned. -/
def gnttab_map_refs (batch_ret : Int) (oracles : Nat → List Int)
    (statuses : List Int) : Option (Int × List Int) :=
  if batch_ret ≠ 0 then some (batch_ret, statuses)
  else (map_refs_loop oracles 0 statuses).map (fun sts => (0, sts))

/-! ## The free-list allocator (gnttab.c lines 46-87, 319-343)

State: the gref_list array as a function (slot 0 holds the free-list head),
the counting semaphore (count and its k_sem_init limit), and the
interrupt-mask bit (irq = true means interrupts are masked).  get_free_entry
blocking on an empty semaphore is modelled as none. -/

structure GT where
  l : Nat → Nat
  sem : Nat
  semLimit : Nat
  irq : Bool

/-- Pointwise array update for the gref_list function. -/
def upd (l : Nat → Nat) (i v : Nat) : Nat → Nat :=
  fun x => if x = i then v else l x

/-- get_free_entry (gnttab.c lines 52-68): take the semaphore (none = the
caller blocks), pop the head inside the irq_lock/irq_unlock pair (the mask is
restored), mark the popped slot with GNTTAB_GREF_USED. -/
def get_free_entry (s : GT) : Option (Nat × GT) :=
  if s.sem = 0 then none
  else
    some (s.l 0,
      { s with l := upd (upd s.l 0 (s.l (s.l 0))) (s.l 0) GNTTAB_GREF_USED,
               sem := s.sem - 1 })

/-- put_free_entry (gnttab.c lines 70-87): under irq_lock, a slot not marked
GNTTAB_GREF_USED only logs a warning and returns early; the early return
leaves the interrupt mask set because the C code never reaches irq_unlock on
that path.  Otherwise the slot is pushed onto the head, the mask is restored
and the semaphore is given (k_sem_give saturates at the limit). -/
def put_free_entry (gref : Nat) (s : GT) : GT :=
  if s.l gref ≠ GNTTAB_GREF_USED then { s with irq := true }
  else
    { s with l := upd (upd s.l gref (s.l 0)) 0 gref,
             sem := if s.sem < s.semLimit then s.sem + 1 else s.sem }

/-- The gref_list contents gnttab_init seeds (gnttab.c lines 338-343), with
NR = NR_GRANT_ENTRIES and RES = GNTTAB_NR_RESERVED_ENTRIES: slot 0 points at
RES, slots RES..NR-2 chain upwards, slot NR-1 terminates with 0, and the
untouched slots (1..RES-1, static storage) stay 0. -/
def init_gref_list (NR RES : Nat) : Nat → Nat :=
  fun g =>
    if g = 0 then RES
    else if g < RES then 0
    else if g = NR - 1 then 0
    else if g < NR then g + 1
    else 0

/-- The allocator state right after gnttab_init: seeded free list, semaphore
count and limit both NR - RES (gnttab.c lines 334-343), interrupts on. -/
def gnttab_init_state (NR RES : Nat) : GT :=
  { l := init_gref_list NR RES, sem := NR - RES, semLimit := NR - RES, irq := false }

/-! ## Allocation traces -/

/-- One client call into the allocator. -/
inductive AllocOp where
  | acquire : AllocOp
  | release (gref : Nat) : AllocOp
deriving DecidableEq, Repr

/-- One step of a client trace.  Alongside the allocator state the model
tracks live, the list of handles acquired and not yet released: acquire
prepends the returned gref; a release that actually frees removes it. -/
def allocStep (s : GT) (live : List Nat) : AllocOp → Option (GT × List Nat)
  | AllocOp.acquire => (get_free_entry s).map (fun p => (p.2, p.1 :: live))
  | AllocOp.release g =>
    some (put_free_entry g s,
          if s.l g = GNTTAB_GREF_USED then live.erase g else live)

/-- Run a whole client trace; none means some acquire blocked (the trace
exceeded capacity). -/
def allocRun (s : GT) (live : List Nat) : List AllocOp → Option (GT × List Nat)
  | [] => some (s, live)
  | op :: ops => (allocStep s live op).bind (fun p => allocRun p.1 p.2 ops)

/-- The gref at the end of gnttab_end_access is freed: decidable check that
cur chains through gs and terminates at 0 (slot 0 of gref_list is the head
pointer, value 0 the list terminator). -/
def linksb (l : Nat → Nat) : Nat → List Nat → Bool
  | cur, [] => cur == 0
  | cur, g :: gs => cur == g && linksb l (l g) gs

/-- The ascending run of grefs RES, RES+1, ..., RES+n-1 that gnttab_init
chains into the free list. -/
def freeSeq : Nat → Nat → List Nat
  | _, 0 => []
  | a, n + 1 => a :: freeSeq (a + 1) n

/-- The allocator representation invariant.  fl abstracts the intrusive free
list: it is the chain the head reaches, has no duplicates, stays inside the
allocatable range [RES, NR), and — the exactly-one property — an in-range
gref is on the chain precisely when its slot is not GNTTAB_GREF_USED, while
GNTTAB_GREF_USED appears only in in-range slots.  The semaphore counts the
chain, and live is exactly the set of GNTTAB_GREF_USED slots. -/
def Inv (NR RES : Nat) (s : GT) (live : List Nat) : Prop :=
  s.semLimit = NR - RES ∧
  live.Nodup ∧
  ∃ fl : List Nat,
    linksb s.l (s.l 0) fl = true ∧
    fl.Nodup ∧
    (∀ g ∈ fl, RES ≤ g ∧ g < NR) ∧
    (∀ g, RES ≤ g → g < NR → (g ∈ fl ↔ s.l g ≠ GNTTAB_GREF_USED)) ∧
    (∀ g, s.l g = GNTTAB_GREF_USED → RES ≤ g ∧ g < NR) ∧
    s.sem = fl.length ∧
    (∀ g, g ∈ live ↔ s.l g = GNTTAB_GREF_USED)

/-! ## gnttab_end_access (gnttab.c lines 138-153)

The entry's flags word is handled by reset_loop (initial read fl0 plus the
cmpxchg interference trace vs); s is the allocator state.  The C code stores
the gnttab_reset_flags return code in rc and runs `if (!rc) return rc;`: the
rc = 0 path (flags successfully cleared) returns 0 immediately without
touching the allocator, and the rc = 1 path (entry still in use) falls
through to put_free_entry(gref) and returns 0. -/
def gnttab_end_access (gref : Nat) (fl0 : Nat) (vs : List Nat) (s : GT) :
    Option (Int × GT) :=
  match reset_loop fl0 vs with
  | FlagsOutcome.exhausted => none
  | FlagsOutcome.cleared _ => some (0, s)
  | FlagsOutcome.stillInUse _ => some (0, put_free_entry gref s)

/-! ## Claims about gnttab_get_page, gnttab_get_max_frames, gnttab_reset_flags
and gnttab_grant_permit_access -/

/-- C2: the claim says that when the page allocation succeeds and the
remove-from-physmap hypercall fails, gnttab_get_page frees the page and
reports failure with no leaked allocation.  Evaluating the code at that
failing input shows the failure is reported (NULL) but the allocation is
still outstanding: the C error path returns without calling k_free, so the
page leaks.  The other two paths behave as described. -/
theorem gnttab_get_page_eval :
    gnttab_get_page true (-1) = (none, true) ∧
    gnttab_get_page true 0 = (some (), true) ∧
    gnttab_get_page false 0 = (none, false) := by decide

/-- C10: when the capacity query fails (negative overall return or non-okay
status), gnttab_get_max_frames falls back to the legacy maximum 4, and the
boot-time capacity panic of gnttab_init fires exactly when the configured
number of grant frames exceeds 4. -/
theorem gnttab_get_max_frames_fallback (cfg : Nat) (ret status : Int) (m : Nat)
    (h : ret < 0 ∨ status ≠ GNTST_okay) :
    gnttab_get_max_frames ret status m = LEGACY_MAX_GNT_FRAMES_SUPPORTED ∧
    (gnttab_init_capacity_panic cfg ret status m = true ↔ 4 < cfg) := by
  constructor
  · simp only [gnttab_get_max_frames, if_pos h]
  · simp only [gnttab_init_capacity_panic, gnttab_get_max_frames, if_pos h,
      LEGACY_MAX_GNT_FRAMES_SUPPORTED, decide_eq_true_eq]

theorem gnttab_get_max_frames_fallback_witness :
    ((-1 : Int) < 0 ∨ (GNTST_okay : Int) ≠ GNTST_okay) ∧
    (gnttab_get_max_frames (-1) GNTST_okay 32 = LEGACY_MAX_GNT_FRAMES_SUPPORTED ∧
     (gnttab_init_capacity_panic 5 (-1) GNTST_okay 32 = true ↔ 4 < 5)) :=
  ⟨Or.inl (by decide),
   gnttab_get_max_frames_fallback 5 (-1) GNTST_okay 32 (Or.inl (by decide))⟩

/-- C4: an entry whose flags carry the reading or writing bit makes
gnttab_reset_flags report the conflict (return 1) with the entry unchanged
and no store performed, and the compare-and-swap writes 0 only at a value in
which neither bit is set. -/
theorem gnttab_reset_flags_busy_behavior :
    (∀ (e : GrantEntry) (vs : List Nat),
        e.flags &&& (GTF_reading ||| GTF_writing) ≠ 0 →
        gnttab_reset_flags e vs = some (1, e)) ∧
    (∀ (fl : Nat) (vs : List Nat) (v : Nat),
        reset_loop fl vs = FlagsOutcome.cleared v →
        v &&& (GTF_reading ||| GTF_writing) = 0) := by
  constructor
  · intro e vs h
    unfold gnttab_reset_flags
    cases vs with
    | nil => rw [reset_loop, if_pos h]
    | cons v rest => rw [reset_loop, if_pos h]
  · intro fl vs
    induction vs generalizing fl with
    | nil =>
      intro v h
      rw [reset_loop] at h
      by_cases hb : fl &&& (GTF_reading ||| GTF_writing) ≠ 0
      · rw [if_pos hb] at h; cases h
      · rw [if_neg hb] at h; cases h
    | cons w rest ih =>
      intro v h
      rw [reset_loop] at h
      by_cases hb : fl &&& (GTF_reading ||| GTF_writing) ≠ 0
      · rw [if_pos hb] at h; cases h
      · rw [if_neg hb] at h
        by_cases hw : w = fl
        · rw [if_pos hw] at h
          cases h
          exact not_ne_iff.mp hb
        · rw [if_neg hw] at h
          exact ih w v h

theorem gnttab_reset_flags_busy_behavior_witness :
    (GTF_reading &&& (GTF_reading ||| GTF_writing) ≠ 0 ∧
     gnttab_reset_flags ⟨GTF_reading, 7, 42⟩ [] = some (1, ⟨GTF_reading, 7, 42⟩)) ∧
    (reset_loop 0 [0] = FlagsOutcome.cleared 0 ∧
     0 &&& (GTF_reading ||| GTF_writing) = 0) :=
  ⟨⟨by decide, gnttab_reset_flags_busy_behavior.1 ⟨GTF_reading, 7, 42⟩ [] (by decide)⟩,
   ⟨by decide, gnttab_reset_flags_busy_behavior.2 0 [0] 0 (by decide)⟩⟩

/-- C8: in the action trace of gnttab_grant_permit_access, every flags store
is preceded by a fence which is preceded by all frame and domid stores; as a
consequence, any observer that has seen a prefix of the trace in which the
flags are already nonzero (the entry started inactive, flags = 0) already
sees the granted frame and domain id. -/
theorem gnttab_grant_permit_access_order (domid gfn : Nat) (ro : Bool)
    (e : GrantEntry) (h : e.flags = 0) :
    (∀ (i v : Nat), (gnttab_grant_permit_access domid gfn ro)[i]? = some (GntWrite.wflags v) →
        ∃ j : Nat, j < i ∧ (gnttab_grant_permit_access domid gfn ro)[j]? = some GntWrite.fence ∧
          ∀ (k w : Nat), ((gnttab_grant_permit_access domid gfn ro)[k]? = some (GntWrite.wframe w) ∨
                  (gnttab_grant_permit_access domid gfn ro)[k]? = some (GntWrite.wdomid w)) →
            k < j) ∧
    (∀ n, (applyWrites e ((gnttab_grant_permit_access domid gfn ro).take n)).flags ≠ 0 →
        (applyWrites e ((gnttab_grant_permit_access domid gfn ro).take n)).frame = gfn ∧
        (applyWrites e ((gnttab_grant_permit_access domid gfn ro).take n)).domid = domid) := by
  constructor
  · intro i v hi
    rcases i with _ | _ | _ | _ | m
    · simp [gnttab_grant_permit_access] at hi
    · simp [gnttab_grant_permit_access] at hi
    · simp [gnttab_grant_permit_access] at hi
    · refine ⟨2, ?_, ?_, ?_⟩
      · omega
      · simp [gnttab_grant_permit_access]
      intro k w hk
      rcases k with _ | _ | _ | _ | m
      · omega
      · omega
      · rcases hk with hk | hk <;> simp [gnttab_grant_permit_access] at hk
      · rcases hk with hk | hk <;> simp [gnttab_grant_permit_access] at hk
      · rcases hk with hk | hk <;> simp [gnttab_grant_permit_access] at hk
    · simp [gnttab_grant_permit_access] at hi
  · intro n hn
    rcases n with _ | _ | _ | _ | m
    · simp [applyWrites, h] at hn
    · simp [gnttab_grant_permit_access, applyWrites, applyWrite, h] at hn
    · simp [gnttab_grant_permit_access, applyWrites, applyWrite, h] at hn
    · simp [gnttab_grant_permit_access, applyWrites, applyWrite, h] at hn
    · constructor <;>
        simp [gnttab_grant_permit_access, applyWrites, applyWrite, List.take_succ_cons]

theorem gnttab_grant_permit_access_order_witness :
    (⟨0, 0, 0⟩ : GrantEntry).flags = 0 ∧
    (applyWrites ⟨0, 0, 0⟩ ((gnttab_grant_permit_access 7 42 false).take 4)).frame = 42 ∧
    (applyWrites ⟨0, 0, 0⟩ ((gnttab_grant_permit_access 7 42 false).take 4)).domid = 7 :=
  ⟨rfl,
   ((gnttab_grant_permit_access_order 7 42 false ⟨0, 0, 0⟩ rfl).2 4 (by decide)).1,
   ((gnttab_grant_permit_access_order 7 42 false ⟨0, 0, 0⟩ rfl).2 4 (by decide)).2⟩

/-! ## Claims about gop_eagain_retry and gnttab_map_refs -/

/-- The loop exit condition: a returned status/delay pair never satisfies
both "status is eagain" and "delay still below the budget". -/
theorem gop_loop_exit (vs : List Int) :
    ∀ d st d2, gop_loop d vs = some (st, d2) →
      ¬(st = GNTST_eagain ∧ d2 < GOP_RETRY_DELAY) := by
  induction vs with
  | nil => intro d st d2 h; cases h
  | cons v rest ih =>
    intro d st d2 h
    rw [gop_loop] at h
    by_cases hc : v = GNTST_eagain ∧ d + 10 < GOP_RETRY_DELAY
    · rw [if_pos hc] at h
      exact ih (d + 10) st d2 h
    · rw [if_neg hc] at h
      simp only [Option.some.injEq, Prod.mk.injEq] at h
      obtain ⟨h1, h2⟩ := h
      subst h1; subst h2
      exact hc

/-- Termination of the retry loop: once the remaining oracle is long enough
to exhaust the delay budget, the loop exits. -/
theorem gop_loop_isSome (vs : List Int) :
    ∀ d, vs ≠ [] → GOP_RETRY_DELAY ≤ d + 10 * vs.length →
      (gop_loop d vs).isSome = true := by
  induction vs with
  | nil => intro d hne _; exact absurd rfl hne
  | cons v rest ih =>
    intro d _ hlen
    rw [gop_loop]
    by_cases hc : v = GNTST_eagain ∧ d + 10 < GOP_RETRY_DELAY
    · rw [if_pos hc]
      rcases rest with _ | ⟨w, rest2⟩
      · simp only [List.length_cons, List.length_nil] at hlen
        omega
      · apply ih (d + 10) (by simp)
        simp only [List.length_cons] at hlen ⊢
        omega
    · rw [if_neg hc]; rfl

/-- The timeout conversion guarantees the retry layer never hands back the
transient code. -/
theorem gop_eagain_retry_ne_eagain (oracle : List Int) (v : Int)
    (h : gop_eagain_retry oracle = some v) : v ≠ GNTST_eagain := by
  unfold gop_eagain_retry at h
  cases hl : gop_loop 10 oracle with
  | none => rw [hl] at h; cases h
  | some p =>
    obtain ⟨st, d2⟩ := p
    rw [hl] at h
    simp only [Option.map_some', Option.some.injEq] at h
    subst h
    by_cases hd : GOP_RETRY_DELAY ≤ d2
    · rw [if_pos hd]
      decide
    · rw [if_neg hd]
      have hex := gop_loop_exit oracle 10 st d2 hl
      intro he
      exact hex ⟨he, by omega⟩

/-- An oracle long enough for the worst case (19 resubmissions) always
produces a final status, and that status is never the transient code. -/
theorem gop_retry_total (vs : List Int) (h : 19 ≤ vs.length) :
    ∃ v, gop_eagain_retry vs = some v ∧ v ≠ GNTST_eagain := by
  have hne : vs ≠ [] := by
    intro h2; subst h2; simp at h
  have hs := gop_loop_isSome vs 10 hne (by simp only [GOP_RETRY_DELAY]; omega)
  obtain ⟨p, hp⟩ := Option.isSome_iff_exists.mp hs
  obtain ⟨st, d2⟩ := p
  have hval : gop_eagain_retry vs =
      some (if GOP_RETRY_DELAY ≤ d2 then GNTST_bad_page else st) := by
    unfold gop_eagain_retry; rw [hp, Option.map_some']
  exact ⟨_, hval, gop_eagain_retry_ne_eagain vs _ hval⟩

/-- A first non-eagain status at position k exits the loop at delay
d + 10 * (k + 1) carrying that status. -/
theorem gop_loop_first_exit (k : Nat) :
    ∀ (vs : List Int) (d : Nat),
      (∀ i, i < k → vs.getD i 0 = GNTST_eagain) →
      k < vs.length →
      vs.getD k 0 ≠ GNTST_eagain →
      d + 10 * (k + 1) < GOP_RETRY_DELAY →
      gop_loop d vs = some (vs.getD k 0, d + 10 * (k + 1)) := by
  induction k with
  | zero =>
    intro vs d _ hk hne _
    cases vs with
    | nil => simp at hk
    | cons v rest =>
      simp only [List.getD_cons_zero] at hne ⊢
      have harith : d + 10 * (0 + 1) = d + 10 := by omega
      rw [gop_loop, if_neg (fun hc => hne hc.1), harith]
  | succ k ih =>
    intro vs d hpre hk hne hd
    cases vs with
    | nil => simp at hk
    | cons v rest =>
      have hv : v = GNTST_eagain := by
        have := hpre 0 (Nat.succ_pos k)
        simpa using this
      rw [gop_loop, if_pos ⟨hv, by omega⟩]
      have hstep := ih rest (d + 10)
        (fun i hi => by
          have := hpre (i + 1) (by omega)
          simpa using this)
        (by simp only [List.length_cons] at hk; omega)
        (by simpa using hne)
        (by omega)
      simp only [List.getD_cons_succ]
      have harith : d + 10 * (k + 1 + 1) = d + 10 + 10 * (k + 1) := by omega
      rw [harith]
      exact hstep

/-- When the first j statuses are all eagain and the budget runs out exactly
at position j, the loop exits there with the full budget consumed. -/
theorem gop_loop_budget (j : Nat) :
    ∀ (vs : List Int) (d : Nat),
      (∀ i, i < j → vs.getD i 0 = GNTST_eagain) →
      j < vs.length →
      d + 10 * j + 10 = GOP_RETRY_DELAY →
      gop_loop d vs = some (vs.getD j 0, GOP_RETRY_DELAY) := by
  induction j with
  | zero =>
    intro vs d _ hk hd
    cases vs with
    | nil => simp at hk
    | cons v rest =>
      simp only [List.getD_cons_zero]
      have harith : d + 10 = GOP_RETRY_DELAY := by omega
      rw [gop_loop, if_neg (fun hc => by omega), harith]
  | succ j ih =>
    intro vs d hpre hk hd
    cases vs with
    | nil => simp at hk
    | cons v rest =>
      have hv : v = GNTST_eagain := by
        have := hpre 0 (Nat.succ_pos j)
        simpa using this
      rw [gop_loop, if_pos ⟨hv, by omega⟩]
      have hstep := ih rest (d + 10)
        (fun i hi => by
          have := hpre (i + 1) (by omega)
          simpa using this)
        (by simp only [List.length_cons] at hk; omega)
        (by omega)
      rw [hstep]
      simp only [List.getD_cons_succ]

/-- C3 counterexample: an entry whose 18 first resubmissions are transient
and whose 19th (final, at the delay bound) resubmission succeeds is
nevertheless converted to the hard-failure bad-page code — the conversion is
not "exactly when still transient at the bound", and a success obtained at
the bound is not kept. -/
theorem gop_eagain_retry_clobbers_final_success :
    gop_eagain_retry (List.replicate 18 GNTST_eagain ++ [GNTST_okay]) =
      some GNTST_bad_page ∧
    GNTST_okay ≠ GNTST_eagain ∧ GNTST_bad_page ≠ GNTST_okay := by decide

/-- C3 (amended): each transient entry is resubmitted individually with
linear 10 ms backoff and never retried indefinitely (an oracle of 19
statuses always suffices and the returned status is never the transient
code); an entry whose resubmission succeeds strictly before the 200 ms
budget keeps that status; and the status is converted to the hard-failure
bad-page code exactly when the delay budget is exhausted — which is the case
whenever the first 18 resubmissions are transient, even if the 19th (at the
bound) succeeded. -/
theorem gop_eagain_retry_bounded :
    (∀ vs : List Int, 19 ≤ vs.length →
        ∃ v, gop_eagain_retry vs = some v ∧ v ≠ GNTST_eagain) ∧
    (∀ (vs : List Int) (k : Nat), k ≤ 17 →
        (∀ i, i < k → vs.getD i 0 = GNTST_eagain) →
        k < vs.length → vs.getD k 0 ≠ GNTST_eagain →
        gop_eagain_retry vs = some (vs.getD k 0)) ∧
    (∀ vs : List Int,
        (∀ i, i < 18 → vs.getD i 0 = GNTST_eagain) → 18 < vs.length →
        gop_eagain_retry vs = some GNTST_bad_page) := by
  refine ⟨gop_retry_total, ?_, ?_⟩
  · intro vs k hk hpre hklen hkne
    have hloop := gop_loop_first_exit k vs 10 hpre hklen hkne
      (by simp only [GOP_RETRY_DELAY]; omega)
    unfold gop_eagain_retry
    rw [hloop, Option.map_some', if_neg (by simp only [GOP_RETRY_DELAY]; omega)]
  · intro vs hpre hlen
    have hloop := gop_loop_budget 18 vs 10 hpre hlen
      (by simp only [GOP_RETRY_DELAY])
    unfold gop_eagain_retry
    rw [hloop, Option.map_some', if_pos (le_refl GOP_RETRY_DELAY)]

theorem gop_eagain_retry_bounded_witness :
    (∃ v, gop_eagain_retry (List.replicate 19 GNTST_eagain) = some v ∧
        v ≠ GNTST_eagain) ∧
    gop_eagain_retry [GNTST_okay] = some GNTST_okay ∧
    gop_eagain_retry (List.replicate 19 GNTST_eagain) = some GNTST_bad_page :=
  ⟨gop_eagain_retry_bounded.1 (List.replicate 19 GNTST_eagain) (by decide),
   gop_eagain_retry_bounded.2.1 [GNTST_okay] 0 (by decide) (by decide) (by decide)
     (by decide),
   gop_eagain_retry_bounded.2.2 (List.replicate 19 GNTST_eagain) (by decide)
     (by decide)⟩

/-- A status produced for one batch entry is never the transient code: a
non-eagain status is kept as-is, and a retried entry carries the retry
layer's result, which is never eagain. -/
theorem map_entry_recheck_ne_eagain (oracle : List Int) (st st2 : Int)
    (h : map_entry_recheck oracle st = some st2) : st2 ≠ GNTST_eagain := by
  unfold map_entry_recheck at h
  by_cases he : st = GNTST_eagain
  · rw [if_pos he] at h
    cases hg : gop_eagain_retry oracle with
    | none => rw [hg] at h; cases h
    | some v =>
      rw [hg, Option.some_bind] at h
      by_cases hv : v = GNTST_eagain
      · rw [if_pos hv] at h; cases h
      · rw [if_neg hv] at h
        simp only [Option.some.injEq] at h
        subst h; exact hv
  · rw [if_neg he] at h
    simp only [Option.some.injEq] at h
    subst h; exact he

/-- Whatever status list the post-batch loop returns contains no transient
code. -/
theorem map_refs_loop_no_eagain (statuses : List Int) :
    ∀ (oracles : Nat → List Int) (i : Nat) (sts : List Int),
      map_refs_loop oracles i statuses = some sts →
      ∀ st ∈ sts, st ≠ GNTST_eagain := by
  induction statuses with
  | nil =>
    intro oracles i sts h st hst
    rw [map_refs_loop] at h
    simp only [Option.some.injEq] at h
    subst h
    simp at hst
  | cons a rest ih =>
    intro oracles i sts h st hst
    rw [map_refs_loop] at h
    cases hm : map_entry_recheck (oracles i) a with
    | none => rw [hm] at h; cases h
    | some a2 =>
      rw [hm] at h
      cases hr : map_refs_loop oracles (i + 1) rest with
      | none => rw [hr] at h; cases h
      | some sts2 =>
        rw [hr] at h
        simp only [Option.map_some', Option.some.injEq] at h
        subst h
        rcases List.mem_cons.mp hst with h | h
        · subst h; exact map_entry_recheck_ne_eagain (oracles i) a st hm
        · exact ih oracles (i + 1) sts2 hr st h

/-- With per-entry oracles long enough for the worst case, the post-batch
loop completes and keeps the batch length. -/
theorem map_refs_loop_total (statuses : List Int) :
    ∀ (oracles : Nat → List Int) (i : Nat), (∀ j, 19 ≤ (oracles j).length) →
      ∃ sts, map_refs_loop oracles i statuses = some sts ∧
        sts.length = statuses.length := by
  induction statuses with
  | nil => intro oracles i _; exact ⟨[], rfl, rfl⟩
  | cons a rest ih =>
    intro oracles i h
    obtain ⟨sts, hs, hlen⟩ := ih oracles (i + 1) h
    have hentry : ∃ st2, map_entry_recheck (oracles i) a = some st2 := by
      unfold map_entry_recheck
      by_cases he : a = GNTST_eagain
      · rw [if_pos he]
        obtain ⟨v, hv, hvne⟩ := gop_retry_total (oracles i) (h i)
        rw [hv, Option.some_bind, if_neg hvne]
        exact ⟨v, rfl⟩
      · rw [if_neg he]
        exact ⟨a, rfl⟩
    obtain ⟨st2, h2⟩ := hentry
    refine ⟨st2 :: sts, ?_, by simp [hlen]⟩
    rw [map_refs_loop, h2, hs]
    rfl

/-- C9: whenever gnttab_map_refs returns 0, no batch entry is left with the
transient GNTST_eagain status — every transient status was replaced by the
retry layer's final status (a success, another final status, or the
hard-failure bad-page code); and with enough hypervisor responses available
the operation does return 0 with one final status per entry. -/
theorem gnttab_map_refs_no_eagain :
    (∀ (batch_ret : Int) (oracles : Nat → List Int) (statuses sts : List Int),
        gnttab_map_refs batch_ret oracles statuses = some (0, sts) →
        ∀ st ∈ sts, st ≠ GNTST_eagain) ∧
    (∀ (oracles : Nat → List Int) (statuses : List Int),
        (∀ j, 19 ≤ (oracles j).length) →
        ∃ sts, gnttab_map_refs 0 oracles statuses = some (0, sts) ∧
          sts.length = statuses.length) := by
  constructor
  · intro br oracles statuses sts h
    unfold gnttab_map_refs at h
    by_cases hb : br ≠ 0
    · rw [if_pos hb] at h
      simp only [Option.some.injEq, Prod.mk.injEq] at h
      exact absurd h.1 hb
    · rw [if_neg hb] at h
      cases hl : map_refs_loop oracles 0 statuses with
      | none => rw [hl] at h; cases h
      | some l =>
        rw [hl] at h
        simp only [Option.map_some', Option.some.injEq, Prod.mk.injEq] at h
        obtain ⟨-, h2⟩ := h
        subst h2
        exact map_refs_loop_no_eagain statuses oracles 0 l hl
  · intro oracles statuses h
    obtain ⟨sts, hs, hlen⟩ := map_refs_loop_total statuses oracles 0 h
    refine ⟨sts, ?_, hlen⟩
    unfold gnttab_map_refs
    rw [if_neg (by simp), hs]
    rfl

theorem gnttab_map_refs_no_eagain_witness :
    (∀ st ∈ [GNTST_okay, GNTST_bad_page], st ≠ GNTST_eagain) ∧
    (∃ sts, gnttab_map_refs 0 (fun _ => List.replicate 19 GNTST_eagain)
        [GNTST_okay, GNTST_eagain, GNTST_no_device_space] = some (0, sts) ∧
      sts.length = 3) :=
  ⟨gnttab_map_refs_no_eagain.1 0 (fun _ => List.replicate 19 GNTST_eagain)
     [GNTST_okay, GNTST_eagain] [GNTST_okay, GNTST_bad_page] (by decide),
   gnttab_map_refs_no_eagain.2 (fun _ => List.replicate 19 GNTST_eagain)
     [GNTST_okay, GNTST_eagain, GNTST_no_device_space] (fun j => by simp)⟩

/-! ## Claims about gnttab_end_access and the allocator -/

/-- C1: the claim says that with the reading or writing flag bits set,
gnttab_end_access returns the still-in-use conflict result without returning
the gref to the allocator, and that on success it returns the gref to the
allocator.  Evaluating the code on a 6-entry allocator in which grefs 1 and 2
are allocated (head = 3) shows the opposite: with flags = GTF_reading the
call returns 0 (no conflict signalled) and pushes gref 2 back onto the free
list (new head = 2, old head 3 chained behind it, semaphore given), while
with flags already clear the call returns 0 but leaves gref 2 marked used on
the free list (head still 3, semaphore untouched) — the gnttab_reset_flags
return convention (1 = still in use, 0 = success) is used inverted by
gnttab_end_access's if (!rc) test. -/
theorem gnttab_end_access_eval :
    (gnttab_end_access 2 GTF_reading []
        { l := fun g => if g = 0 then 3 else if g = 1 then GNTTAB_GREF_USED
                else if g = 2 then GNTTAB_GREF_USED else 0,
          sem := 1, semLimit := 3, irq := false }).map
        (fun p => (p.1, p.2.l 0, p.2.l 2, p.2.sem)) = some (0, 2, 3, 2) ∧
    GTF_reading &&& (GTF_reading ||| GTF_writing) ≠ 0 ∧
    (gnttab_end_access 2 0 [0]
        { l := fun g => if g = 0 then 3 else if g = 1 then GNTTAB_GREF_USED
                else if g = 2 then GNTTAB_GREF_USED else 0,
          sem := 1, semLimit := 3, irq := false }).map
        (fun p => (p.1, p.2.l 0, p.2.l 2, p.2.sem)) =
      some (0, 3, GNTTAB_GREF_USED, 1) := by
  refine ⟨rfl, by decide, rfl⟩

/-- C6: the claim says put_free_entry on a slot not marked
GNTTAB_GREF_USED is a no-op apart from the log: free list unchanged,
semaphore not given, all other observable state unchanged, subsequent
acquires uncorrupted.  Evaluating the code at such an input (gref 2 of a
freshly initialized 4-entry table, where slot 2 holds 3, not the sentinel)
confirms the free list, the semaphore and the next acquire result are
untouched — but the call returns with the interrupt mask still set (it
entered irq_lock and took the early return before any irq_unlock), so the
"leaves all other observable state unchanged" part fails on the interrupt
mask. -/
theorem put_free_entry_guard_eval :
    (∀ g, (put_free_entry 2 (gnttab_init_state 4 1)).l g =
        (gnttab_init_state 4 1).l g) ∧
    (put_free_entry 2 (gnttab_init_state 4 1)).sem = (gnttab_init_state 4 1).sem ∧
    (get_free_entry (put_free_entry 2 (gnttab_init_state 4 1))).map Prod.fst =
      (get_free_entry (gnttab_init_state 4 1)).map Prod.fst ∧
    (gnttab_init_state 4 1).l 2 ≠ GNTTAB_GREF_USED ∧
    (put_free_entry 2 (gnttab_init_state 4 1)).irq = true ∧
    (gnttab_init_state 4 1).irq = false :=
  ⟨fun g => rfl, rfl, by decide, by decide, rfl, rfl⟩

/-! ## Allocator helper lemmas -/

theorem upd_self (l : Nat → Nat) (i v : Nat) : upd l i v i = v := by
  simp [upd]

theorem upd_ne (l : Nat → Nat) (i v x : Nat) (h : x ≠ i) : upd l i v x = l x := by
  simp [upd, h]

/-- linksb only inspects the slots of the chain's members, so it is stable
under updates elsewhere. -/
theorem linksb_congr (gs : List Nat) :
    ∀ (l1 l2 : Nat → Nat) (c : Nat), (∀ g ∈ gs, l2 g = l1 g) →
      linksb l2 c gs = linksb l1 c gs := by
  induction gs with
  | nil => intro l1 l2 c _; rfl
  | cons g rest ih =>
    intro l1 l2 c h
    simp only [linksb]
    rw [h g (List.mem_cons_self g rest),
      ih l1 l2 (l1 g) (fun x hx => h x (List.mem_cons_of_mem g hx))]

theorem freeSeq_length : ∀ (n a : Nat), (freeSeq a n).length = n := by
  intro n
  induction n with
  | zero => intro a; rfl
  | succ m ih => intro a; simp [freeSeq, ih]

theorem mem_freeSeq : ∀ (n a g : Nat), g ∈ freeSeq a n ↔ a ≤ g ∧ g < a + n := by
  intro n
  induction n with
  | zero => intro a g; simp [freeSeq]
  | succ m ih =>
    intro a g
    simp only [freeSeq, List.mem_cons, ih]
    omega

theorem freeSeq_nodup : ∀ (n a : Nat), (freeSeq a n).Nodup := by
  intro n
  induction n with
  | zero => intro a; simp [freeSeq]
  | succ m ih =>
    intro a
    simp only [freeSeq]
    refine List.nodup_cons.mpr ⟨?_, ih (a + 1)⟩
    rw [mem_freeSeq]
    omega

/-- A duplicate-free list of naturals bounded inside an interval is no longer
than the interval. -/
theorem nodup_bounded_length (xs : List Nat) (a b : Nat) (hnd : xs.Nodup)
    (hb : ∀ x ∈ xs, a ≤ x ∧ x < b) : xs.length ≤ b - a := by
  have h1 : xs.toFinset.card = xs.length := List.toFinset_card_of_nodup hnd
  have h2 : xs.toFinset ⊆ Finset.Ico a b := by
    intro x hx
    rw [List.mem_toFinset] at hx
    exact Finset.mem_Ico.mpr (hb x hx)
  calc xs.length = xs.toFinset.card := h1.symm
    _ ≤ (Finset.Ico a b).card := Finset.card_le_card h2
    _ = b - a := Nat.card_Ico a b

/-- The seeded gref_list chains the whole non-reserved range. -/
theorem init_gref_list_linksb (NR RES : Nat) (h1 : 1 ≤ RES) :
    ∀ (n a : Nat), RES ≤ a → a + n = NR → 0 < n →
      linksb (init_gref_list NR RES) a (freeSeq a n) = true := by
  intro n
  induction n with
  | zero => intro a _ _ h; omega
  | succ m ih =>
    intro a ha hsum _
    cases m with
    | zero =>
      simp only [freeSeq, linksb]
      have hval : init_gref_list NR RES a = 0 := by
        unfold init_gref_list
        rw [if_neg (by omega), if_neg (by omega), if_pos (by omega)]
      rw [hval]
      simp
    | succ k =>
      have hfs : freeSeq a (k + 1 + 1) = a :: freeSeq (a + 1) (k + 1) := rfl
      rw [hfs, linksb]
      have hval : init_gref_list NR RES a = a + 1 := by
        unfold init_gref_list
        rw [if_neg (by omega), if_neg (by omega), if_neg (by omega),
          if_pos (by omega)]
      rw [hval]
      simp only [beq_self_eq_true, Bool.true_and]
      exact ih (a + 1) (by omega) (by omega) (by omega)

/-- No slot of the seeded gref_list carries the in-use sentinel. -/
theorem init_gref_list_ne_used (NR RES : Nat) (h2 : RES < NR)
    (h3 : NR < GNTTAB_GREF_USED) :
    ∀ g, init_gref_list NR RES g ≠ GNTTAB_GREF_USED := by
  intro g
  have hU : GNTTAB_GREF_USED = 4294967294 := rfl
  rw [hU] at h3 ⊢
  unfold init_gref_list
  split_ifs <;> omega

/-- The freshly initialized allocator satisfies the representation
invariant with no live handles. -/
theorem init_inv (NR RES : Nat) (h1 : 1 ≤ RES) (h2 : RES < NR)
    (h3 : NR < GNTTAB_GREF_USED) :
    Inv NR RES (gnttab_init_state NR RES) [] := by
  refine ⟨rfl, List.nodup_nil, freeSeq RES (NR - RES), ?_, freeSeq_nodup _ _,
    ?_, ?_, ?_, ?_, ?_⟩
  · have h0 : (gnttab_init_state NR RES).l 0 = RES := by
      simp [gnttab_init_state, init_gref_list]
    rw [h0]
    exact init_gref_list_linksb NR RES h1 (NR - RES) RES (le_refl RES)
      (by omega) (by omega)
  · intro g hg
    rw [mem_freeSeq] at hg
    omega
  · intro g hge hglt
    rw [mem_freeSeq]
    have hne := init_gref_list_ne_used NR RES h2 h3 g
    constructor
    · intro _; exact hne
    · intro _; omega
  · intro g hused
    exact absurd hused (init_gref_list_ne_used NR RES h2 h3 g)
  · simp [gnttab_init_state, freeSeq_length]
  · intro g
    simp only [List.not_mem_nil, false_iff]
    exact init_gref_list_ne_used NR RES h2 h3 g

/-- Acquiring preserves the invariant: the popped head is a fresh in-range
gref, marked used and prepended to the live handles. -/
theorem get_free_entry_inv (NR RES : Nat) (h1 : 1 ≤ RES)
    (h3 : NR < GNTTAB_GREF_USED) (s : GT) (live : List Nat) (g : Nat) (s2 : GT)
    (hinv : Inv NR RES s live) (hget : get_free_entry s = some (g, s2)) :
    Inv NR RES s2 (g :: live) ∧ RES ≤ g ∧ g < NR ∧
      s.l g ≠ GNTTAB_GREF_USED ∧ s2.l g = GNTTAB_GREF_USED := by
  obtain ⟨hlimit, hnodup, fl, hlinks, hflnd, hbnd, hmem, hrange, hsem, hlive⟩ := hinv
  unfold get_free_entry at hget
  by_cases hz : s.sem = 0
  · rw [if_pos hz] at hget; cases hget
  · rw [if_neg hz] at hget
    simp only [Option.some.injEq, Prod.mk.injEq] at hget
    obtain ⟨hg, hs2⟩ := hget
    rcases fl with _ | ⟨h0, rest⟩
    · rw [hsem] at hz
      simp at hz
    · rw [linksb, Bool.and_eq_true, beq_iff_eq] at hlinks
      obtain ⟨hhead, hlinks2⟩ := hlinks
      have hgh : g = h0 := by rw [← hg, hhead]
      subst hgh
      rw [hhead] at hs2
      subst hs2
      have hgb := hbnd g (List.mem_cons_self g rest)
      have hgne : g ≠ 0 := by omega
      have hgused : s.l g ≠ GNTTAB_GREF_USED :=
        (hmem g hgb.1 hgb.2).mp (List.mem_cons_self g rest)
      have hrestmem : g ∉ rest := (List.nodup_cons.mp hflnd).1
      have hl2g : upd (upd s.l 0 (s.l g)) g GNTTAB_GREF_USED g =
          GNTTAB_GREF_USED := upd_self _ g _
      have hl20 : upd (upd s.l 0 (s.l g)) g GNTTAB_GREF_USED 0 = s.l g := by
        rw [upd_ne _ _ _ _ (Ne.symm hgne)]
        exact upd_self _ _ _
      have hl2x : ∀ x, x ≠ 0 → x ≠ g →
          upd (upd s.l 0 (s.l g)) g GNTTAB_GREF_USED x = s.l x := by
        intro x hx0 hxg
        rw [upd_ne _ _ _ _ hxg, upd_ne _ _ _ _ hx0]
      refine ⟨⟨hlimit, ?_, rest, ?_, (List.nodup_cons.mp hflnd).2,
        fun x hx => hbnd x (List.mem_cons_of_mem g hx), ?_, ?_, ?_, ?_⟩,
        hgb.1, hgb.2, hgused, hl2g⟩
      · refine List.nodup_cons.mpr ⟨?_, hnodup⟩
        intro hin
        exact hgused ((hlive g).mp hin)
      · show linksb (upd (upd s.l 0 (s.l g)) g GNTTAB_GREF_USED)
          (upd (upd s.l 0 (s.l g)) g GNTTAB_GREF_USED 0) rest = true
        rw [hl20, linksb_congr rest s.l _ (s.l g) ?_]
        · exact hlinks2
        · intro x hx
          have hxb := hbnd x (List.mem_cons_of_mem g hx)
          exact hl2x x (by omega) (fun he => hrestmem (he ▸ hx))
      · intro x hxR hxN
        show x ∈ rest ↔
          upd (upd s.l 0 (s.l g)) g GNTTAB_GREF_USED x ≠ GNTTAB_GREF_USED
        by_cases hxg : x = g
        · subst hxg
          exact iff_of_false hrestmem (fun hne => hne hl2g)
        · have hx0 : x ≠ 0 := by omega
          rw [hl2x x hx0 hxg, ← hmem x hxR hxN]
          simp [List.mem_cons, hxg]
      · intro x hx
        replace hx : upd (upd s.l 0 (s.l g)) g GNTTAB_GREF_USED x =
            GNTTAB_GREF_USED := hx
        by_cases hxg : x = g
        · subst hxg; exact hgb
        · by_cases hx0 : x = 0
          · subst hx0
            rw [hl20] at hx
            exact absurd hx hgused
          · rw [hl2x x hx0 hxg] at hx
            exact hrange x hx
      · show s.sem - 1 = rest.length
        simp only [List.length_cons] at hsem
        omega
      · intro x
        show x ∈ g :: live ↔
          upd (upd s.l 0 (s.l g)) g GNTTAB_GREF_USED x = GNTTAB_GREF_USED
        by_cases hxg : x = g
        · subst hxg
          exact iff_of_true (List.mem_cons_self x live) hl2g
        · by_cases hx0 : x = 0
          · subst hx0
            refine iff_of_false ?_ ?_
            · intro hin
              rcases List.mem_cons.mp hin with h | h
              · exact hxg h
              · have h5 := (hlive 0).mp h
                rw [hhead] at h5
                omega
            · rw [hl20]
              exact hgused
          · rw [hl2x x hx0 hxg, ← hlive x]
            simp [List.mem_cons, hxg]

/-- Releasing preserves the invariant: a slot actually marked used is pushed
back onto the chain and removed from the live handles; any other gref leaves
the list, the semaphore and the live handles untouched. -/
theorem put_free_entry_inv (NR RES : Nat) (h1 : 1 ≤ RES) (h2 : RES < NR)
    (h3 : NR < GNTTAB_GREF_USED) (s : GT) (live : List Nat) (g : Nat)
    (hinv : Inv NR RES s live) :
    Inv NR RES (put_free_entry g s)
      (if s.l g = GNTTAB_GREF_USED then live.erase g else live) := by
  obtain ⟨hlimit, hnodup, fl, hlinks, hflnd, hbnd, hmem, hrange, hsem, hlive⟩ := hinv
  by_cases hu : s.l g = GNTTAB_GREF_USED
  · rw [if_pos hu]
    unfold put_free_entry
    rw [if_neg (fun hne => hne hu)]
    obtain ⟨hgR, hgN⟩ := hrange g hu
    have hg0 : g ≠ 0 := by omega
    have hnotfl : g ∉ fl := fun hin => (hmem g hgR hgN).mp hin hu
    have h0used : s.l 0 ≠ GNTTAB_GREF_USED := by
      intro hx
      have := hrange 0 hx
      omega
    have hlen : fl.length < NR - RES := by
      have hnd2 : (g :: fl).Nodup := List.nodup_cons.mpr ⟨hnotfl, hflnd⟩
      have hb2 : ∀ x ∈ (g :: fl), RES ≤ x ∧ x < NR := by
        intro x hx
        rcases List.mem_cons.mp hx with h | h
        · subst h; exact ⟨hgR, hgN⟩
        · exact hbnd x h
      have := nodup_bounded_length (g :: fl) RES NR hnd2 hb2
      simp only [List.length_cons] at this
      omega
    have hl20 : upd (upd s.l g (s.l 0)) 0 g 0 = g := upd_self _ 0 _
    have hl2g : upd (upd s.l g (s.l 0)) 0 g g = s.l 0 := by
      rw [upd_ne _ _ _ _ hg0]
      exact upd_self _ _ _
    have hl2x : ∀ x, x ≠ 0 → x ≠ g → upd (upd s.l g (s.l 0)) 0 g x = s.l x := by
      intro x hx0 hxg
      rw [upd_ne _ _ _ _ hx0, upd_ne _ _ _ _ hxg]
    refine ⟨hlimit, hnodup.erase g, g :: fl, ?_,
      List.nodup_cons.mpr ⟨hnotfl, hflnd⟩, ?_, ?_, ?_, ?_, ?_⟩
    · show linksb (upd (upd s.l g (s.l 0)) 0 g)
        (upd (upd s.l g (s.l 0)) 0 g 0) (g :: fl) = true
      rw [hl20, linksb, Bool.and_eq_true, beq_iff_eq]
      refine ⟨rfl, ?_⟩
      rw [hl2g, linksb_congr fl s.l _ (s.l 0) ?_]
      · exact hlinks
      · intro x hx
        have hxb := hbnd x hx
        exact hl2x x (by omega) (fun he => hnotfl (he ▸ hx))
    · intro x hx
      rcases List.mem_cons.mp hx with h | h
      · subst h; exact ⟨hgR, hgN⟩
      · exact hbnd x h
    · intro x hxR hxN
      show x ∈ g :: fl ↔
        upd (upd s.l g (s.l 0)) 0 g x ≠ GNTTAB_GREF_USED
      by_cases hxg : x = g
      · subst hxg
        refine iff_of_true (List.mem_cons_self x fl) ?_
        rw [hl2g]
        exact h0used
      · have hx0 : x ≠ 0 := by omega
        rw [hl2x x hx0 hxg, ← hmem x hxR hxN]
        simp [List.mem_cons, hxg]
    · intro x hx
      replace hx : upd (upd s.l g (s.l 0)) 0 g x = GNTTAB_GREF_USED := hx
      by_cases hxg : x = g
      · subst hxg; exact ⟨hgR, hgN⟩
      · by_cases hx0 : x = 0
        · subst hx0
          rw [hl20] at hx
          omega
        · rw [hl2x x hx0 hxg] at hx
          exact hrange x hx
    · show (if s.sem < s.semLimit then s.sem + 1 else s.sem) = (g :: fl).length
      rw [if_pos (by omega)]
      simp only [List.length_cons]
      omega
    · intro x
      show x ∈ live.erase g ↔
        upd (upd s.l g (s.l 0)) 0 g x = GNTTAB_GREF_USED
      by_cases hxg : x = g
      · subst hxg
        refine iff_of_false ?_ ?_
        · intro hin
          exact ((hnodup.mem_erase_iff).mp hin).1 rfl
        · rw [hl2g]
          exact h0used
      · by_cases hx0 : x = 0
        · subst hx0
          refine iff_of_false ?_ ?_
          · intro hin
            have h5 := (hlive 0).mp ((hnodup.mem_erase_iff).mp hin).2
            have := hrange 0 h5
            omega
          · rw [hl20]
            omega
        · rw [hl2x x hx0 hxg, hnodup.mem_erase_iff, ← hlive x]
          simp [hxg]
  · rw [if_neg hu]
    unfold put_free_entry
    rw [if_pos hu]
    exact ⟨hlimit, hnodup, fl, hlinks, hflnd, hbnd, hmem, hrange, hsem, hlive⟩

/-- One client step preserves the invariant. -/
theorem allocStep_inv (NR RES : Nat) (h1 : 1 ≤ RES) (h2 : RES < NR)
    (h3 : NR < GNTTAB_GREF_USED) (s : GT) (live : List Nat) (op : AllocOp)
    (p : GT × List Nat) (hinv : Inv NR RES s live)
    (hstep : allocStep s live op = some p) : Inv NR RES p.1 p.2 := by
  cases op with
  | acquire =>
    simp only [allocStep] at hstep
    cases hget : get_free_entry s with
    | none => rw [hget] at hstep; cases hstep
    | some q =>
      rw [hget] at hstep
      simp only [Option.map_some', Option.some.injEq] at hstep
      subst hstep
      exact (get_free_entry_inv NR RES h1 h3 s live q.1 q.2 hinv
        (by rw [hget])).1
  | release g =>
    simp only [allocStep, Option.some.injEq] at hstep
    subst hstep
    exact put_free_entry_inv NR RES h1 h2 h3 s live g hinv

/-- Every state reached by a client trace satisfies the invariant. -/
theorem allocRun_inv (NR RES : Nat) (h1 : 1 ≤ RES) (h2 : RES < NR)
    (h3 : NR < GNTTAB_GREF_USED) (ops : List AllocOp) :
    ∀ (s : GT) (live : List Nat) (p : GT × List Nat),
      Inv NR RES s live → allocRun s live ops = some p → Inv NR RES p.1 p.2 := by
  induction ops with
  | nil =>
    intro s live p hinv h
    rw [allocRun] at h
    simp only [Option.some.injEq] at h
    subst h
    exact hinv
  | cons op ops ih =>
    intro s live p hinv h
    rw [allocRun] at h
    cases hstep : allocStep s live op with
    | none => rw [hstep] at h; cases h
    | some q =>
      rw [hstep, Option.some_bind] at h
      exact ih q.1 q.2 p (allocStep_inv NR RES h1 h2 h3 s live op q hinv hstep) h

/-- C5: for every acquire/release trace from the freshly initialized
allocator in which no acquire blocks, the outstanding (acquired, not yet
released) handles are pairwise distinct, and each allocatable identifier is
in exactly one of the two states: on the free-list chain with its slot not
carrying the in-use sentinel, or off the chain with its slot carrying
GNTTAB_GREF_USED. -/
theorem allocator_no_double_allocation (NR RES : Nat)
    (h1 : 1 ≤ RES) (h2 : RES < NR) (h3 : NR < GNTTAB_GREF_USED)
    (ops : List AllocOp) (s : GT) (live : List Nat)
    (hrun : allocRun (gnttab_init_state NR RES) [] ops = some (s, live)) :
    live.Nodup ∧
    ∃ fl : List Nat,
      linksb s.l (s.l 0) fl = true ∧
      ∀ g, RES ≤ g → g < NR →
        ((g ∈ fl ∧ s.l g ≠ GNTTAB_GREF_USED) ∨
         (g ∉ fl ∧ s.l g = GNTTAB_GREF_USED)) := by
  have hinv := allocRun_inv NR RES h1 h2 h3 ops (gnttab_init_state NR RES) []
    (s, live) (init_inv NR RES h1 h2 h3) hrun
  obtain ⟨-, hnodup, fl, hlinks, -, -, hmem, -, -, -⟩ := hinv
  refine ⟨hnodup, fl, hlinks, ?_⟩
  intro g hge hglt
  by_cases hx : s.l g = GNTTAB_GREF_USED
  · exact Or.inr ⟨fun hin => (hmem g hge hglt).mp hin hx, hx⟩
  · exact Or.inl ⟨(hmem g hge hglt).mpr hx, hx⟩

theorem allocator_no_double_allocation_witness :
    ([1] : List Nat).Nodup ∧
    ∃ fl : List Nat,
      linksb (upd (upd (init_gref_list 4 1) 0 (init_gref_list 4 1 1)) 1
          GNTTAB_GREF_USED)
        (upd (upd (init_gref_list 4 1) 0 (init_gref_list 4 1 1)) 1
          GNTTAB_GREF_USED 0) fl = true ∧
      ∀ g, 1 ≤ g → g < 4 →
        ((g ∈ fl ∧ upd (upd (init_gref_list 4 1) 0 (init_gref_list 4 1 1)) 1
            GNTTAB_GREF_USED g ≠ GNTTAB_GREF_USED) ∨
         (g ∉ fl ∧ upd (upd (init_gref_list 4 1) 0 (init_gref_list 4 1 1)) 1
            GNTTAB_GREF_USED g = GNTTAB_GREF_USED)) :=
  allocator_no_double_allocation 4 1 (by decide) (by decide) (by decide)
    [AllocOp.acquire]
    { l := upd (upd (init_gref_list 4 1) 0 (init_gref_list 4 1 1)) 1
        GNTTAB_GREF_USED,
      sem := 2, semLimit := 3, irq := false }
    [1] rfl

/-- C7: in every state reachable from the freshly initialized allocator by a
non-blocking acquire/release trace, a successful get_free_entry returns a
gref at least the reserved threshold and strictly below the number of grant
entries — the range assertion of get_free_entry holds, and reserved low
identifiers are never handed out (gnttab_grant_access and
gnttab_alloc_and_grant return this gref unchanged). -/
theorem get_free_entry_range (NR RES : Nat)
    (h1 : 1 ≤ RES) (h2 : RES < NR) (h3 : NR < GNTTAB_GREF_USED)
    (ops : List AllocOp) (s : GT) (live : List Nat)
    (hrun : allocRun (gnttab_init_state NR RES) [] ops = some (s, live))
    (g : Nat) (hget : (get_free_entry s).map Prod.fst = some g) :
    RES ≤ g ∧ g < NR := by
  have hinv := allocRun_inv NR RES h1 h2 h3 ops (gnttab_init_state NR RES) []
    (s, live) (init_inv NR RES h1 h2 h3) hrun
  cases hq : get_free_entry s with
  | none => rw [hq] at hget; cases hget
  | some q =>
    rw [hq] at hget
    simp only [Option.map_some', Option.some.injEq] at hget
    subst hget
    have := get_free_entry_inv NR RES h1 h3 s live q.1 q.2 hinv (by rw [hq])
    exact ⟨this.2.1, this.2.2.1⟩

theorem get_free_entry_range_witness : (1 : Nat) ≤ 1 ∧ (1 : Nat) < 4 :=
  get_free_entry_range 4 1 (by decide) (by decide) (by decide) []
    (gnttab_init_state 4 1) [] rfl 1 rfl

end Gnttab
